import Mathlib

/-!
Shallow embedding of the Student Record Management System (`srms.py`):
the in-memory record store (`SRMS.students` and its core operations) and
the tabular sync engine (`SRMS.export_csv` / `SRMS.import_csv`).

Modelling conventions:
* A Python `Student` dataclass becomes the structure `Student`; the store
  `self.students` (a Python list) becomes `Store := List Student`.
* Python `int` roll numbers become `Int`; Python `float` marks become `ℚ`
  (exact rationals; `str(float)`/`float(str)` round-tripping is exact in
  Python, which the rational model mirrors, so "floating-point tolerance"
  comparisons become exact equality).
* A CSV file is modelled structurally, as the `csv.DictReader` view of it:
  a list of header field names plus, per data row, the four cells keyed by
  the canonical names.  A cell of `none` models a short data line, where
  `DictReader` fills the missing value with Python `None`.
* Mutating methods become functions `Store → ... → Store × Bool`; the
  on-disk JSON persistence (`_load`/`_save`) and console printing are out
  of scope, as in the specification.
* Python `str.strip` becomes `pystrip` (ASCII-whitespace trimming) and
  `str.isdigit` becomes `pyIsDigit` (ASCII digits), both over `String.data`.
-/

/-- The `Student` dataclass of `srms.py`: fields `roll_no`, `name`,
`class_name`, `marks` (spec names: key, name, group, score). -/
structure Student where
  roll_no : Int
  name : String
  class_name : String
  marks : ℚ
deriving Repr, DecidableEq

/-- The in-memory record store: `SRMS.students`, a list in insertion order. -/
abbrev Store := List Student

/-- The `SRMS.get_student_by_roll` method: first student with the given
roll number, if any. -/
def get_student_by_roll (store : Store) (roll : Int) : Option Student :=
  store.find? (fun s => s.roll_no == roll)

/-- The `SRMS.add_student` method: refuse if the roll number already
exists, else append.  Returns the new store and the success flag. -/
def add_student (store : Store) (student : Student) : Store × Bool :=
  match get_student_by_roll store student.roll_no with
  | some _ => (store, false)
  | none => (store ++ [student], true)

/-- The keyword arguments of `SRMS.update_student`: each field optional,
`none` meaning "leave unchanged" (Python `None`).  The Python code applies
any keyword that names an attribute of `Student`, so `roll_no` is
updatable too. -/
structure UpdateFields where
  roll_no : Option Int := none
  name : Option String := none
  class_name : Option String := none
  marks : Option ℚ := none
deriving Repr, DecidableEq

/-- One `setattr` pass of `SRMS.update_student`: overwrite exactly the
supplied (non-`None`) fields of a student. -/
def applyFields (s : Student) (f : UpdateFields) : Student :=
  { roll_no := f.roll_no.getD s.roll_no
    name := f.name.getD s.name
    class_name := f.class_name.getD s.class_name
    marks := f.marks.getD s.marks }

/-- In-place mutation of the first student with the given roll number
(Python mutates the object returned by `get_student_by_roll`). -/
def updateFirst (store : Store) (roll : Int) (f : UpdateFields) : Store :=
  match store with
  | [] => []
  | s :: rest =>
    if s.roll_no == roll then applyFields s f :: rest
    else s :: updateFirst rest roll f

/-- The `SRMS.update_student` method: fail if the roll number is absent,
else overwrite the supplied fields of the first matching student. -/
def update_student (store : Store) (roll : Int) (f : UpdateFields) : Store × Bool :=
  match get_student_by_roll store roll with
  | none => (store, false)
  | some _ => (updateFirst store roll f, true)

/-- Removal of the first student with the given roll number (Python
`list.remove` on the object found by `get_student_by_roll`). -/
def removeFirst (store : Store) (roll : Int) : Store :=
  match store with
  | [] => []
  | s :: rest =>
    if s.roll_no == roll then rest
    else s :: removeFirst rest roll

/-- The `SRMS.delete_student` method. -/
def delete_student (store : Store) (roll : Int) : Store × Bool :=
  match get_student_by_roll store roll with
  | none => (store, false)
  | some _ => (removeFirst store roll, true)

/-- The `SRMS.list_students` method: the store sorted by ascending roll
number (Python `sorted` is stable; insertion sort is the matching stable
sort). -/
def list_students (store : Store) : Store :=
  store.insertionSort (fun a b => a.roll_no ≤ b.roll_no)

/-- The `next_free_roll` helper nested in `SRMS.import_csv`: `1` on an
empty store, else the maximum existing roll number plus one. -/
def next_free_roll (store : Store) : Int :=
  match store with
  | [] => 1
  | s :: rest => rest.foldl (fun m t => max m t.roll_no) s.roll_no + 1

/-- The roll numbers of a store, in store order. -/
def rolls (store : Store) : List Int :=
  store.map (fun s => s.roll_no)

/-! ### The tabular (CSV) model

A CSV file is modelled as `csv.DictReader` presents it: the header field
names, and for each data row the cells under the four canonical names.
`none` in a cell models Python `None`, which `DictReader` supplies for a
data line shorter than the header. -/

/-- One data row, as the dict `csv.DictReader` yields for it (restricted
to the four canonical keys; extra columns are ignored by the code). -/
structure Row where
  roll_no : Option String := none
  name : Option String := none
  class_name : Option String := none
  marks : Option String := none
deriving Repr, DecidableEq

/-- A CSV file: header field names plus data rows. -/
structure CSVFile where
  fieldnames : List String
  rows : List Row
deriving Repr, DecidableEq

/-- The `required` header set of `SRMS.import_csv`. -/
def requiredFields : List String := ["roll_no", "name", "class_name", "marks"]

/-- Python `str.strip` (whitespace trimming at both ends), over the
character list of a string. -/
def pystrip (s : String) : String :=
  ⟨((s.data.dropWhile Char.isWhitespace).reverse.dropWhile Char.isWhitespace).reverse⟩

/-- Python `str.isdigit`: non-empty and all digit characters. -/
def pyIsDigit (s : String) : Bool :=
  !s.data.isEmpty && s.data.all Char.isDigit

/-- Numeric value of a big-endian digit-character list (Python `int` on a
digit string). -/
def digitsToNat (l : List Char) : Nat :=
  l.foldl (fun a c => 10 * a + (c.toNat - 48)) 0

/-- Core of Python `float(text)` on an unsigned decimal literal:
`digits`, `digits.digits`, `digits.` or `.digits`.  (The exotic float
literal forms — exponents, `inf`/`nan`, underscores — are outside the
model; no claim depends on them.) -/
def parseFloatCore (l : List Char) : Option ℚ :=
  let ip := l.takeWhile Char.isDigit
  let rest := l.dropWhile Char.isDigit
  match rest with
  | [] => if ip.isEmpty then none else some (mkRat (digitsToNat ip) 1)
  | '.' :: frac =>
    if frac.all Char.isDigit && !(ip.isEmpty && frac.isEmpty) then
      some (mkRat (digitsToNat ip * 10 ^ frac.length + digitsToNat frac) (10 ^ frac.length))
    else none
  | _ => none

/-- Python `float(text)` (decimal forms, with optional sign). -/
def parseFloat (s : String) : Option ℚ :=
  match s.data with
  | '-' :: rest => (parseFloatCore rest).map (fun q => mkRat (-q.num) q.den)
  | '+' :: rest => parseFloatCore rest
  | l => parseFloatCore l

/-- The character of a decimal digit value. -/
def digitChar (d : Nat) : Char := Char.ofNat (48 + d)

/-- Little-endian decimal digits of a natural number (fuel-indexed; the
fuel `n` always suffices since `n / 10 < n` for `n ≠ 0`). -/
def natDigitsAux : Nat → Nat → List Nat
  | 0, _ => []
  | fuel + 1, n => if n = 0 then [] else (n % 10) :: natDigitsAux fuel (n / 10)

/-- Little-endian decimal digits of a natural number. -/
def natDigits (n : Nat) : List Nat := natDigitsAux n n

/-- Big-endian decimal rendering of a natural number (Python `str(int)`
for non-negative values). -/
def natRender (n : Nat) : List Char :=
  if n = 0 then ['0'] else ((natDigits n).map digitChar).reverse

/-- Exactly `k` big-endian digit characters of `m < 10 ^ k`, zero-padded
on the left. -/
def fracDigits : Nat → Nat → List Char
  | 0, _ => []
  | k + 1, m => digitChar (m / 10 ^ k) :: fracDigits k (m % 10 ^ k)

/-- Python `str(int)`. -/
def intRender (i : Int) : List Char :=
  if i < 0 then '-' :: natRender i.natAbs else natRender i.natAbs

/-- Python `str(float)` in the rational model: sign, integer part, a
decimal point, then fractional digits.  We always print `q.den`
fractional digits; when `q.den` divides `10 ^ q.den` (every value a
finite float can take is such a decimal fraction) the printed text
denotes exactly `q`, mirroring Python's exact shortest-round-trip
rendering up to trailing zeros. -/
def renderQ (q : ℚ) : String :=
  let k := q.den
  let m := q.num.natAbs * (10 ^ k / q.den)
  let body := natRender (m / 10 ^ k) ++ '.' :: fracDigits k (m % 10 ^ k)
  if q.num < 0 then ⟨'-' :: body⟩ else ⟨body⟩

/-- The CSV cells `SRMS.export_csv` writes for one student. -/
def studentRow (s : Student) : Row :=
  { roll_no := some ⟨intRender s.roll_no⟩
    name := some s.name
    class_name := some s.class_name
    marks := some (renderQ s.marks) }

/-- The `SRMS.export_csv` method: the canonical header, then one row per
student from `list_students` (roll-ascending). -/
def export_csv (store : Store) : CSVFile :=
  { fieldnames := requiredFields
    rows := (list_students store).map studentRow }

/-! ### The import engine -/

/-- The summary dict built by `SRMS.import_csv`. -/
structure Summary where
  read_rows : Nat := 0
  imported : Nat := 0
  skipped_duplicates : Nat := 0
  overwritten : Nat := 0
  reassigned : Nat := 0
  invalid_rows : Nat := 0
  errors : List String := []
deriving Repr, DecidableEq

/-- The all-zero summary `SRMS.import_csv` starts from. -/
def emptySummary : Summary := {}

/-- A per-row error message, prefixed with its 1-indexed file line
(`enumerate(reader, start=2)`). -/
def lineMsg (i : Nat) (msg : String) : String :=
  "Line " ++ toString i ++ ": " ++ msg

/-- The per-row `except` handler of `SRMS.import_csv`: count the row
invalid and append its line-numbered message. -/
def markInvalid (sum : Summary) (i : Nat) (msg : String) : Summary :=
  { sum with
    invalid_rows := sum.invalid_rows + 1
    errors := sum.errors ++ [lineMsg i msg] }

/-- The cell extraction and validation part of one loop iteration of
`SRMS.import_csv` (lines 153-174): strip the cells (a `None` cell raises
`AttributeError`, caught by the per-row handler), require a digit-string
roll number, a parseable mark, the 0-100 range when `validate_marks` is
set, and non-empty name and class. -/
def parseRow (validate_marks : Bool) (row : Row) : Except String (Int × String × String × ℚ) :=
  match row.roll_no with
  | none => .error "NoneType object has no attribute strip"
  | some roll_cell =>
    match row.marks with
    | none => .error "NoneType object has no attribute strip"
    | some marks_cell =>
      let roll_no_raw := pystrip roll_cell
      let name := pystrip (row.name.getD "")
      let class_name := pystrip (row.class_name.getD "")
      let marks_raw := pystrip marks_cell
      if pyIsDigit roll_no_raw = false then .error "roll_no must be an integer"
      else
        match parseFloat marks_raw with
        | none => .error "marks must be numeric"
        | some marks =>
          if validate_marks ∧ ¬(0 ≤ marks ∧ marks ≤ 100) then
            .error "marks must be between 0 and 100"
          else if name = "" then .error "name cannot be empty"
          else if class_name = "" then .error "class_name cannot be empty"
          else .ok ((digitsToNat roll_no_raw.data : Nat), name, class_name, marks)

/-- In-place field overwrite of the first student with the given roll
number (the `overwrite` policy branch mutates the object found by
`get_student_by_roll`). -/
def overwriteFirst (store : Store) (roll : Int) (n c : String) (m : ℚ) : Store :=
  match store with
  | [] => []
  | s :: rest =>
    if s.roll_no == roll then { s with name := n, class_name := c, marks := m } :: rest
    else s :: overwriteFirst rest roll n c m

/-- One loop iteration of `SRMS.import_csv` for the data row at file line
`i`: count it read, validate, then resolve against the store under the
duplicate policy.  An unknown policy raises inside the per-row `try`, so
it lands in the same handler as a validation failure. -/
def importRow (policy : String) (validate_marks : Bool) (i : Nat)
    (store : Store) (sum : Summary) (row : Row) : Store × Summary :=
  let sum := { sum with read_rows := sum.read_rows + 1 }
  match parseRow validate_marks row with
  | .error msg => (store, markInvalid sum i msg)
  | .ok (roll_no, name, class_name, marks) =>
    match get_student_by_roll store roll_no with
    | some _ =>
      if policy = "skip" then
        (store, { sum with skipped_duplicates := sum.skipped_duplicates + 1 })
      else if policy = "overwrite" then
        (overwriteFirst store roll_no name class_name marks,
         { sum with overwritten := sum.overwritten + 1 })
      else if policy = "reassign" then
        (store ++ [⟨next_free_roll store, name, class_name, marks⟩],
         { sum with reassigned := sum.reassigned + 1 })
      else
        (store, markInvalid sum i ("Unknown duplicate_policy " ++ policy))
    | none =>
      (store ++ [⟨roll_no, name, class_name, marks⟩],
       { sum with imported := sum.imported + 1 })

/-- The row loop of `SRMS.import_csv`, carrying the file line number. -/
def importRows (policy : String) (validate_marks : Bool) :
    Nat → Store → Summary → List Row → Store × Summary
  | _, store, sum, [] => (store, sum)
  | i, store, sum, row :: rest =>
    let res := importRow policy validate_marks i store sum row
    importRows policy validate_marks (i + 1) res.1 res.2 rest

/-- The header precondition of `SRMS.import_csv`: the required names must
all be present (the code's exact-equality disjunct is subsumed by the
subset check). -/
def headerOk (fieldnames : List String) : Bool :=
  requiredFields.all (fun r => fieldnames.contains r)

/-- The `SRMS.import_csv` method.  `none` for the file models a missing
source path (`Path(csv_path).exists()` false). -/
def import_csv (store : Store) (file : Option CSVFile)
    (policy : String) (validate_marks : Bool) : Store × Summary :=
  match file with
  | none => (store, { emptySummary with errors := ["File not found."] })
  | some f =>
    if headerOk f.fieldnames then
      importRows policy validate_marks 2 store emptySummary f.rows
    else
      (store, { emptySummary with
                errors := ["CSV must contain headers: roll_no, name, class_name, marks"] })

/-! ### Basic lemmas about the record store -/

/-- The running maximum in `next_free_roll` dominates its seed and every
list element. -/
lemma foldl_max_le (l : Store) (a : Int) :
    a ≤ l.foldl (fun m t => max m t.roll_no) a ∧
    ∀ t ∈ l, t.roll_no ≤ l.foldl (fun m t => max m t.roll_no) a := by
  induction l generalizing a with
  | nil => simp
  | cons s rest ih =>
    refine ⟨le_trans (le_max_left _ _) (ih (max a s.roll_no)).1, ?_⟩
    intro t ht
    rcases List.mem_cons.mp ht with rfl | ht
    · exact le_trans (le_max_right _ _) (ih (max a t.roll_no)).1
    · exact (ih (max a s.roll_no)).2 t ht

/-- The running maximum in `next_free_roll` is its seed or some element. -/
lemma foldl_max_mem (l : Store) (a : Int) :
    l.foldl (fun m t => max m t.roll_no) a = a ∨
    ∃ t ∈ l, l.foldl (fun m t => max m t.roll_no) a = t.roll_no := by
  induction l generalizing a with
  | nil => exact Or.inl rfl
  | cons s rest ih =>
    rcases ih (max a s.roll_no) with h | ⟨t, ht, h⟩
    · rcases le_total a s.roll_no with hle | hle
      · exact Or.inr ⟨s, List.mem_cons_self _ _, by rw [List.foldl_cons, h]; exact max_eq_right hle⟩
      · exact Or.inl (by rw [List.foldl_cons, h]; exact max_eq_left hle)
    · exact Or.inr ⟨t, List.mem_cons_of_mem _ ht, by rw [List.foldl_cons, h]⟩

/-- Every roll number in the store is strictly below `next_free_roll`. -/
lemma roll_lt_next_free_roll (store : Store) :
    ∀ t ∈ store, t.roll_no < next_free_roll store := by
  intro t ht
  cases store with
  | nil => cases ht
  | cons s rest =>
    have h := foldl_max_le rest s.roll_no
    rcases List.mem_cons.mp ht with rfl | ht
    · exact Int.lt_add_one_iff.mpr h.1
    · exact Int.lt_add_one_iff.mpr (h.2 t ht)

/-- The fresh roll number is never already present. -/
lemma next_free_roll_not_mem (store : Store) :
    next_free_roll store ∉ rolls store := by
  intro h
  rcases List.mem_map.mp h with ⟨t, ht, hroll⟩
  exact absurd hroll (ne_of_lt (roll_lt_next_free_roll store t ht))

/-- Lookup failure is exactly absence of the roll number. -/
lemma get_student_by_roll_eq_none_iff (store : Store) (r : Int) :
    get_student_by_roll store r = none ↔ r ∉ rolls store := by
  simp only [get_student_by_roll, List.find?_eq_none, rolls, List.mem_map]
  constructor
  · rintro h ⟨t, ht, rfl⟩
    exact h t ht (beq_self_eq_true _)
  · intro h t ht hbeq
    exact h ⟨t, ht, eq_of_beq hbeq⟩

/-- A successful lookup returns a member carrying the requested roll. -/
lemma get_student_by_roll_eq_some (store : Store) (r : Int) (s : Student)
    (h : get_student_by_roll store r = some s) : s.roll_no = r ∧ s ∈ store := by
  have h' : List.find? (fun t => t.roll_no == r) store = some s := h
  have hp := List.find?_some h'
  exact ⟨eq_of_beq hp, List.mem_of_find?_eq_some h'⟩

/-- C8: `next_free_roll` returns `1` on the empty store and otherwise one
more than the maximum existing roll number (the returned value is some
member's roll plus one, and it strictly dominates every member's roll);
it is a pure function of the current store contents, so it is recomputed
from them at each call by construction.  In particular, after inserting
rolls 1 and 3 into an empty store it returns 4. -/
theorem next_free_roll_correct (store : Store) :
    (store = [] → next_free_roll store = 1) ∧
    (store ≠ [] →
      (∃ t ∈ store, next_free_roll store = t.roll_no + 1) ∧
      ∀ t ∈ store, t.roll_no + 1 ≤ next_free_roll store) ∧
    next_free_roll (add_student (add_student [] ⟨1, "A", "X", 50⟩).1 ⟨3, "B", "Y", 60⟩).1 = 4 := by
  refine ⟨fun h => by subst h; rfl, fun h => ⟨?_, ?_⟩, by decide⟩
  · cases store with
    | nil => exact absurd rfl h
    | cons s rest =>
      rcases foldl_max_mem rest s.roll_no with hm | ⟨t, ht, hm⟩
      · exact ⟨s, List.mem_cons_self _ _, by simp [next_free_roll, hm]⟩
      · exact ⟨t, List.mem_cons_of_mem _ ht, by simp [next_free_roll, hm]⟩
  · intro t ht
    exact Int.add_one_le_iff.mpr (roll_lt_next_free_roll store t ht)

/-- Witness for C8: the theorem applied at the empty store and at a
concrete two-element store. -/
theorem next_free_roll_correct_witness :
    next_free_roll [] = 1 ∧
    ∃ t ∈ ([⟨5, "A", "X", 50⟩] : Store), next_free_roll [⟨5, "A", "X", 50⟩] = t.roll_no + 1 :=
  ⟨(next_free_roll_correct []).1 rfl,
   ((next_free_roll_correct [⟨5, "A", "X", 50⟩]).2.1 (by decide)).1⟩

/-! ### C3: every data row lands in exactly one classification counter -/

/-- One import iteration reads exactly one row and classifies it into
exactly one of the five counters. -/
lemma importRow_counts (policy : String) (validate : Bool) (i : Nat)
    (store : Store) (sum : Summary) (row : Row) :
    (importRow policy validate i store sum row).2.read_rows = sum.read_rows + 1 ∧
    (importRow policy validate i store sum row).2.imported +
      (importRow policy validate i store sum row).2.skipped_duplicates +
      (importRow policy validate i store sum row).2.overwritten +
      (importRow policy validate i store sum row).2.reassigned +
      (importRow policy validate i store sum row).2.invalid_rows =
    sum.imported + sum.skipped_duplicates + sum.overwritten + sum.reassigned +
      sum.invalid_rows + 1 := by
  cases hp : parseRow validate row with
  | error msg => simp [importRow, hp, markInvalid]; omega
  | ok v =>
    obtain ⟨roll, name, cname, marks⟩ := v
    cases hg : get_student_by_roll store roll with
    | none => simp [importRow, hp, hg]; omega
    | some s =>
      simp only [importRow, hp, hg]
      split_ifs <;> simp [markInvalid] <;> omega

/-- The row loop preserves the counter partition. -/
lemma importRows_counts (policy : String) (validate : Bool) (rows₀ : List Row) :
    ∀ (i : Nat) (store : Store) (sum : Summary),
      sum.read_rows = sum.imported + sum.skipped_duplicates + sum.overwritten +
        sum.reassigned + sum.invalid_rows →
      (importRows policy validate i store sum rows₀).2.read_rows =
        (importRows policy validate i store sum rows₀).2.imported +
        (importRows policy validate i store sum rows₀).2.skipped_duplicates +
        (importRows policy validate i store sum rows₀).2.overwritten +
        (importRows policy validate i store sum rows₀).2.reassigned +
        (importRows policy validate i store sum rows₀).2.invalid_rows := by
  induction rows₀ with
  | nil => intro i store sum h; exact h
  | cons row rest ih =>
    intro i store sum h
    have hstep := importRow_counts policy validate i store sum row
    simpa [importRows] using
      ih (i + 1) (importRow policy validate i store sum row).1
        (importRow policy validate i store sum row).2 (by omega)

/-- C3: for every import run, `read_rows` equals the sum of the five
classification counters — every data row read is counted exactly once. -/
theorem import_csv_counters_partition (store : Store) (file : Option CSVFile)
    (policy : String) (validate : Bool) :
    (import_csv store file policy validate).2.read_rows =
      (import_csv store file policy validate).2.imported +
      (import_csv store file policy validate).2.skipped_duplicates +
      (import_csv store file policy validate).2.overwritten +
      (import_csv store file policy validate).2.reassigned +
      (import_csv store file policy validate).2.invalid_rows := by
  cases file with
  | none => rfl
  | some f =>
    by_cases hh : headerOk f.fieldnames
    · simp only [import_csv, hh, if_pos]
      exact importRows_counts policy validate f.rows 2 store emptySummary rfl
    · simp [import_csv, hh, emptySummary]

/-! ### C5: fatal preconditions, and header flexibility -/

/-- The header check accepts exactly the headers containing all four
required names (in any order, extra names ignored). -/
lemma headerOk_iff (fieldnames : List String) :
    headerOk fieldnames = true ↔ ∀ r ∈ requiredFields, r ∈ fieldnames := by
  simp [headerOk, List.all_eq_true, List.elem_iff]

/-- C5: a missing source file or a header lacking one of the four
canonical names is fatal before any row is processed — an error is
recorded, every counter is zero and the store is unchanged; conversely a
header containing all four names, in any order and possibly with extras,
is accepted and the import proceeds to the row loop. -/
theorem import_csv_preconditions (store : Store) (policy : String) (validate : Bool) :
    (∀ file : Option CSVFile,
      (file = none ∨ ∃ f, file = some f ∧ ¬ ∀ r ∈ requiredFields, r ∈ f.fieldnames) →
      (import_csv store file policy validate).1 = store ∧
      (import_csv store file policy validate).2.read_rows = 0 ∧
      (import_csv store file policy validate).2.imported = 0 ∧
      (import_csv store file policy validate).2.skipped_duplicates = 0 ∧
      (import_csv store file policy validate).2.overwritten = 0 ∧
      (import_csv store file policy validate).2.reassigned = 0 ∧
      (import_csv store file policy validate).2.invalid_rows = 0 ∧
      (import_csv store file policy validate).2.errors ≠ []) ∧
    ∀ f : CSVFile, (∀ r ∈ requiredFields, r ∈ f.fieldnames) →
      import_csv store (some f) policy validate =
        importRows policy validate 2 store emptySummary f.rows := by
  constructor
  · rintro file (rfl | ⟨f, rfl, hf⟩)
    · simp [import_csv, emptySummary]
    · have hh : ¬ headerOk f.fieldnames = true := fun h => hf ((headerOk_iff _).mp h)
      simp [import_csv, hh, emptySummary]
  · intro f hf
    simp [import_csv, (headerOk_iff _).mpr hf]

/-! ### C9: per-row failures are non-fatal and do not touch the store -/

/-- C9: a data row that fails extraction or validation (non-integer roll,
non-numeric or out-of-range marks, empty name or class, missing cell) is
classified invalid with a line-numbered message, the store is left
untouched for that row, and the loop continues with the remaining rows.
The engine itself is a total function, so it returns an outcome summary
for every input by construction. -/
theorem import_row_failure_is_nonfatal (policy : String) (validate : Bool) (i : Nat)
    (store : Store) (sum : Summary) (row : Row) (rest : List Row) (msg : String)
    (h : parseRow validate row = .error msg) :
    importRows policy validate i store sum (row :: rest) =
      importRows policy validate (i + 1) store
        { sum with read_rows := sum.read_rows + 1,
                   invalid_rows := sum.invalid_rows + 1,
                   errors := sum.errors ++ [lineMsg i msg] } rest := by
  simp [importRows, importRow, h, markInvalid]

/-! ### C1: an unknown duplicate policy is a per-row error, not an abort -/

/-- Amended C1: on a validated row whose roll already exists, an unknown
duplicate policy raises inside the per-row handler, so the row is counted
invalid with a configuration error message, the store is unchanged for
that row, and the import continues with the remaining rows (rows already
processed remain applied). -/
theorem unknown_policy_is_per_row (policy : String) (validate : Bool) (i : Nat)
    (store : Store) (sum : Summary) (row : Row) (rest : List Row)
    (roll : Int) (nm cn : String) (mq : ℚ) (s : Student)
    (hs : policy ≠ "skip") (ho : policy ≠ "overwrite") (hr : policy ≠ "reassign")
    (hrow : parseRow validate row = .ok (roll, nm, cn, mq))
    (hdup : get_student_by_roll store roll = some s) :
    importRows policy validate i store sum (row :: rest) =
      importRows policy validate (i + 1) store
        { sum with read_rows := sum.read_rows + 1,
                   invalid_rows := sum.invalid_rows + 1,
                   errors := sum.errors ++
                     [lineMsg i ("Unknown duplicate_policy " ++ policy)] } rest := by
  simp [importRows, importRow, hrow, hdup, hs, ho, hr, markInvalid]

/-! ### C6: the reassign policy -/

/-- C6: a validated row whose roll already exists, under `reassign`,
leaves every existing record unchanged (the store is extended, not
edited), appends exactly one new record carrying the incoming name,
class and marks under the fresh roll `next_free_roll store`, counts one
reassignment, and the fresh roll is strictly greater than every roll
present immediately before the row was processed — so two colliding rows
in one import necessarily receive distinct fresh rolls. -/
theorem import_reassign_fresh (validate : Bool) (i : Nat) (store : Store) (sum : Summary)
    (row : Row) (rest : List Row) (roll : Int) (nm cn : String) (mq : ℚ) (s : Student)
    (hrow : parseRow validate row = .ok (roll, nm, cn, mq))
    (hdup : get_student_by_roll store roll = some s) :
    importRows "reassign" validate i store sum (row :: rest) =
      importRows "reassign" validate (i + 1)
        (store ++ [⟨next_free_roll store, nm, cn, mq⟩])
        { sum with read_rows := sum.read_rows + 1,
                   reassigned := sum.reassigned + 1 } rest ∧
    ∀ t ∈ store, t.roll_no < next_free_roll store := by
  exact ⟨by simp [importRows, importRow, hrow, hdup], roll_lt_next_free_roll store⟩

/-! ### C7: the overwrite and skip policies -/

/-- Overwriting edits fields only, never roll numbers. -/
lemma rolls_overwriteFirst (store : Store) (roll : Int) (n c : String) (m : ℚ) :
    rolls (overwriteFirst store roll n c m) = rolls store := by
  induction store with
  | nil => rfl
  | cons t rest ih =>
    by_cases hb : t.roll_no = roll
    · simp [overwriteFirst, rolls, hb]
    · simp only [overwriteFirst, beq_iff_eq, if_neg hb, rolls, List.map_cons]
      simpa [rolls] using ih

/-- Overwriting neither adds nor removes records. -/
lemma length_overwriteFirst (store : Store) (roll : Int) (n c : String) (m : ℚ) :
    (overwriteFirst store roll n c m).length = store.length := by
  induction store with
  | nil => rfl
  | cons t rest ih =>
    by_cases hb : t.roll_no = roll
    · simp [overwriteFirst, hb]
    · simp only [overwriteFirst, beq_iff_eq, if_neg hb, List.length_cons]
      omega

/-- After an overwrite, looking the roll up yields exactly the incoming
fields under the unchanged roll. -/
lemma get_overwriteFirst (store : Store) (roll : Int) (n c : String) (m : ℚ)
    (s : Student) (h : get_student_by_roll store roll = some s) :
    get_student_by_roll (overwriteFirst store roll n c m) roll =
      some ⟨roll, n, c, m⟩ := by
  induction store with
  | nil => cases h
  | cons t rest ih =>
    by_cases hb : t.roll_no = roll
    · subst hb
      simp [overwriteFirst, get_student_by_roll, List.find?_cons]
    · have h' : get_student_by_roll rest roll = some s := by
        simpa [get_student_by_roll, List.find?_cons, hb] using h
      simpa [overwriteFirst, get_student_by_roll, List.find?_cons, hb] using ih h'

/-- C7: a validated row whose roll already exists, under `overwrite`,
replaces the matching record's name, class and marks in place — the
stored roll numbers and the record count are unchanged and the record
found at that roll afterwards carries exactly the incoming fields — and
counts one overwrite; under `skip` the store is left entirely unchanged
and one skipped duplicate is counted. -/
theorem import_overwrite_and_skip (validate : Bool) (i : Nat) (store : Store)
    (sum : Summary) (row : Row) (rest : List Row)
    (roll : Int) (nm cn : String) (mq : ℚ) (s : Student)
    (hrow : parseRow validate row = .ok (roll, nm, cn, mq))
    (hdup : get_student_by_roll store roll = some s) :
    (importRows "overwrite" validate i store sum (row :: rest) =
      importRows "overwrite" validate (i + 1)
        (overwriteFirst store roll nm cn mq)
        { sum with read_rows := sum.read_rows + 1,
                   overwritten := sum.overwritten + 1 } rest) ∧
    rolls (overwriteFirst store roll nm cn mq) = rolls store ∧
    (overwriteFirst store roll nm cn mq).length = store.length ∧
    get_student_by_roll (overwriteFirst store roll nm cn mq) roll =
      some ⟨roll, nm, cn, mq⟩ ∧
    (importRows "skip" validate i store sum (row :: rest) =
      importRows "skip" validate (i + 1) store
        { sum with read_rows := sum.read_rows + 1,
                   skipped_duplicates := sum.skipped_duplicates + 1 } rest) := by
  refine ⟨by simp [importRows, importRow, hrow, hdup],
    rolls_overwriteFirst store roll nm cn mq,
    length_overwriteFirst store roll nm cn mq,
    get_overwriteFirst store roll nm cn mq s hdup,
    by simp [importRows, importRow, hrow, hdup]⟩

/-! ### Shared concrete demonstration data -/

/-- A concrete resident student used by the witnesses. -/
def demoDup : Student := ⟨1, "Existing", "X", 50⟩

/-- A valid incoming row colliding with `demoDup` on roll 1. -/
def demoRowDup : Row :=
  { roll_no := some "1", name := some "New", class_name := some "Y", marks := some "99" }

/-- A row with a non-integer roll number. -/
def demoBadRow : Row :=
  { roll_no := some "abc", name := some "X", class_name := some "Y", marks := some "10" }

/-- Witness for C5: the theorem applied to a missing file over a concrete
store, and to a header with the four names out of order plus an extra. -/
theorem import_csv_preconditions_witness :
    (import_csv [demoDup] none "skip" true).1 = [demoDup] ∧
    (import_csv [demoDup] none "skip" true).2.read_rows = 0 ∧
    (import_csv [demoDup] none "skip" true).2.errors ≠ [] ∧
    import_csv [] (some ⟨["marks", "extra", "roll_no", "class_name", "name"], []⟩) "skip" true =
      importRows "skip" true 2 [] emptySummary [] := by
  have h1 := (import_csv_preconditions [demoDup] "skip" true).1 none (Or.inl rfl)
  exact ⟨h1.1, h1.2.1, h1.2.2.2.2.2.2.2,
    (import_csv_preconditions [] "skip" true).2
      ⟨["marks", "extra", "roll_no", "class_name", "name"], []⟩ (by decide)⟩

/-- Witness for C9: the theorem applied to a concrete row whose roll
number is not an integer. -/
theorem import_row_failure_is_nonfatal_witness :
    importRows "skip" true 2 [demoDup] emptySummary [demoBadRow] =
      importRows "skip" true 3 [demoDup]
        { emptySummary with
          read_rows := emptySummary.read_rows + 1
          invalid_rows := emptySummary.invalid_rows + 1
          errors := emptySummary.errors ++ [lineMsg 2 "roll_no must be an integer"] } [] :=
  import_row_failure_is_nonfatal "skip" true 2 [demoDup] emptySummary demoBadRow []
    "roll_no must be an integer" (by rfl)

/-- Witness for the amended C1: the theorem applied to the policy string
"drop" on a concrete colliding row. -/
theorem unknown_policy_is_per_row_witness :
    importRows "drop" true 2 [demoDup] emptySummary [demoRowDup] =
      importRows "drop" true 3 [demoDup]
        { emptySummary with
          read_rows := emptySummary.read_rows + 1
          invalid_rows := emptySummary.invalid_rows + 1
          errors := emptySummary.errors ++
            [lineMsg 2 ("Unknown duplicate_policy " ++ "drop")] } [] :=
  unknown_policy_is_per_row "drop" true 2 [demoDup] emptySummary demoRowDup []
    1 "New" "Y" 99 demoDup (by decide) (by decide) (by decide) (by rfl) (by rfl)

/-- Counterexample to C1 as stated: over a store holding roll 1, three
rows (two colliding, then a fresh one) under the unknown policy "drop"
produce the configuration error twice, keep processing (all three rows
read), and still import the later fresh row — the import does not abort. -/
theorem unknown_policy_not_fatal_cex :
    ((import_csv [demoDup]
        (some ⟨requiredFields,
          [demoRowDup,
           { roll_no := some "1", name := some "C", class_name := some "Z", marks := some "70" },
           { roll_no := some "2", name := some "D", class_name := some "W", marks := some "80" }]⟩)
        "drop" true).2.errors.length = 2) ∧
    ((import_csv [demoDup]
        (some ⟨requiredFields,
          [demoRowDup,
           { roll_no := some "1", name := some "C", class_name := some "Z", marks := some "70" },
           { roll_no := some "2", name := some "D", class_name := some "W", marks := some "80" }]⟩)
        "drop" true).2.read_rows = 3) ∧
    ((import_csv [demoDup]
        (some ⟨requiredFields,
          [demoRowDup,
           { roll_no := some "1", name := some "C", class_name := some "Z", marks := some "70" },
           { roll_no := some "2", name := some "D", class_name := some "W", marks := some "80" }]⟩)
        "drop" true).2.imported = 1) := by
  exact ⟨by decide, by decide, by decide⟩

/-- Witness for C6: the theorem applied to a concrete colliding row under
`reassign`. -/
theorem import_reassign_fresh_witness :
    (importRows "reassign" true 2 [demoDup] emptySummary [demoRowDup] =
      importRows "reassign" true 3
        ([demoDup] ++ [⟨next_free_roll [demoDup], "New", "Y", 99⟩])
        { emptySummary with
          read_rows := emptySummary.read_rows + 1
          reassigned := emptySummary.reassigned + 1 } []) ∧
    ∀ t ∈ [demoDup], t.roll_no < next_free_roll [demoDup] :=
  import_reassign_fresh true 2 [demoDup] emptySummary demoRowDup []
    1 "New" "Y" 99 demoDup (by rfl) (by rfl)

/-- Witness for C7: the theorem applied to a concrete colliding row. -/
theorem import_overwrite_and_skip_witness :
    (importRows "overwrite" true 2 [demoDup] emptySummary [demoRowDup] =
      importRows "overwrite" true 3
        (overwriteFirst [demoDup] 1 "New" "Y" 99)
        { emptySummary with
          read_rows := emptySummary.read_rows + 1
          overwritten := emptySummary.overwritten + 1 } []) ∧
    rolls (overwriteFirst [demoDup] 1 "New" "Y" 99) = rolls [demoDup] ∧
    (overwriteFirst [demoDup] 1 "New" "Y" 99).length = ([demoDup] : Store).length ∧
    get_student_by_roll (overwriteFirst [demoDup] 1 "New" "Y" 99) 1 =
      some ⟨1, "New", "Y", 99⟩ ∧
    (importRows "skip" true 2 [demoDup] emptySummary [demoRowDup] =
      importRows "skip" true 3 [demoDup]
        { emptySummary with
          read_rows := emptySummary.read_rows + 1
          skipped_duplicates := emptySummary.skipped_duplicates + 1 } []) :=
  import_overwrite_and_skip true 2 [demoDup] emptySummary demoRowDup []
    1 "New" "Y" 99 demoDup (by rfl) (by rfl)

/-! ### C2: key uniqueness across operation sequences -/

/-- The public mutating operations of the record store. -/
inductive SRMSOp where
  | add (s : Student)
  | update (roll : Int) (f : UpdateFields)
  | delete (roll : Int)
  | importFile (file : Option CSVFile) (policy : String) (validate : Bool)

/-- Application of one public operation to the store. -/
def applyOp (store : Store) : SRMSOp → Store
  | .add s => (add_student store s).1
  | .update roll f => (update_student store roll f).1
  | .delete roll => (delete_student store roll).1
  | .importFile file policy validate => (import_csv store file policy validate).1

/-- An operation that never supplies the key field of an update (the
amended fidelity condition: `update_student` applies any keyword naming a
`Student` attribute, so an update carrying `roll_no` can rewrite a key). -/
def keyPreserving : SRMSOp → Bool
  | .update _ f => f.roll_no == none
  | _ => true

/-- Appending a fresh roll preserves distinctness. -/
lemma nodup_rolls_append_single (store : Store) (t : Student)
    (h : (rolls store).Nodup) (hmem : t.roll_no ∉ rolls store) :
    (rolls (store ++ [t])).Nodup := by
  rw [rolls, List.map_append]
  refine List.Nodup.append h (List.nodup_singleton _) ?_
  intro a ha hb
  rcases List.mem_singleton.mp hb with rfl
  exact hmem ha

/-- A key-field-free update leaves every stored roll number in place. -/
lemma rolls_updateFirst (store : Store) (roll : Int) (f : UpdateFields)
    (h : f.roll_no = none) :
    rolls (updateFirst store roll f) = rolls store := by
  induction store with
  | nil => rfl
  | cons t rest ih =>
    by_cases hb : t.roll_no = roll
    · simp [updateFirst, hb, rolls, applyFields, h]
    · simp only [updateFirst, beq_iff_eq, if_neg hb, rolls, List.map_cons]
      simpa [rolls] using ih

/-- Deletion removes a record and keeps the rest in order. -/
lemma removeFirst_sublist (store : Store) (roll : Int) :
    (removeFirst store roll).Sublist store := by
  induction store with
  | nil => exact List.Sublist.refl _
  | cons t rest ih =>
    by_cases hb : t.roll_no = roll
    · simp only [removeFirst, beq_iff_eq, if_pos hb]
      exact List.sublist_cons_self t rest
    · simpa [removeFirst, hb] using List.Sublist.cons₂ t ih

/-- One import iteration preserves key distinctness. -/
lemma importRow_nodup (policy : String) (validate : Bool) (i : Nat)
    (store : Store) (sum : Summary) (row : Row)
    (h : (rolls store).Nodup) :
    (rolls (importRow policy validate i store sum row).1).Nodup := by
  cases hp : parseRow validate row with
  | error msg => simpa [importRow, hp] using h
  | ok v =>
    obtain ⟨roll, name, cname, marks⟩ := v
    cases hg : get_student_by_roll store roll with
    | none =>
      have hout : roll ∉ rolls store := (get_student_by_roll_eq_none_iff store roll).mp hg
      simpa [importRow, hp, hg] using nodup_rolls_append_single store _ h hout
    | some s =>
      simp only [importRow, hp, hg]
      split_ifs with h1 h2 h3
      · simpa using h
      · simpa [rolls_overwriteFirst] using h
      · simpa using nodup_rolls_append_single store _ h (next_free_roll_not_mem store)
      · simpa using h

/-- The import loop preserves key distinctness. -/
lemma importRows_nodup (policy : String) (validate : Bool) (rows₀ : List Row) :
    ∀ (i : Nat) (store : Store) (sum : Summary), (rolls store).Nodup →
      (rolls (importRows policy validate i store sum rows₀).1).Nodup := by
  induction rows₀ with
  | nil => intro i store sum h; exact h
  | cons row rest ih =>
    intro i store sum h
    simpa [importRows] using
      ih (i + 1) (importRow policy validate i store sum row).1
        (importRow policy validate i store sum row).2
        (importRow_nodup policy validate i store sum row h)

/-- A whole import preserves key distinctness. -/
lemma import_csv_nodup (store : Store) (file : Option CSVFile)
    (policy : String) (validate : Bool) (h : (rolls store).Nodup) :
    (rolls (import_csv store file policy validate).1).Nodup := by
  cases file with
  | none => simpa [import_csv] using h
  | some f =>
    by_cases hh : headerOk f.fieldnames
    · simpa [import_csv, hh] using importRows_nodup policy validate f.rows 2 store emptySummary h
    · simpa [import_csv, hh] using h

/-- Amended C2: starting from any store with pairwise-distinct keys,
every sequence of the public operations add / update / delete / import
preserves the no-two-live-records-share-a-key invariant, provided each
update leaves the key field unsupplied; moreover such an update preserves
every record's key in place.  (The unamended claim fails because
`update_student` also accepts the key field; see the counterexample.) -/
theorem key_uniqueness_invariant (init : Store) (ops : List SRMSOp)
    (hinit : (rolls init).Nodup)
    (hops : ∀ op ∈ ops, keyPreserving op = true) :
    (rolls (ops.foldl applyOp init)).Nodup ∧
    ∀ (store : Store) (roll : Int) (f : UpdateFields), f.roll_no = none →
      rolls (update_student store roll f).1 = rolls store := by
  constructor
  · induction ops generalizing init with
    | nil => exact hinit
    | cons op rest ih =>
      refine ih (applyOp init op) ?_ (fun o ho => hops o (List.mem_cons_of_mem _ ho))
      have hop := hops op (List.mem_cons_self _ _)
      cases op with
      | add s =>
        cases hg : get_student_by_roll init s.roll_no with
        | some t => simpa [applyOp, add_student, hg] using hinit
        | none =>
          have hout : s.roll_no ∉ rolls init :=
            (get_student_by_roll_eq_none_iff init s.roll_no).mp hg
          simpa [applyOp, add_student, hg] using
            nodup_rolls_append_single init s hinit hout
      | update roll f =>
        have hf : f.roll_no = none := by
          simpa [keyPreserving] using hop
        cases hg : get_student_by_roll init roll with
        | none => simpa [applyOp, update_student, hg] using hinit
        | some t =>
          simpa [applyOp, update_student, hg, rolls_updateFirst init roll f hf] using hinit
      | delete roll =>
        cases hg : get_student_by_roll init roll with
        | none => simpa [applyOp, delete_student, hg] using hinit
        | some t =>
          have hsub := (removeFirst_sublist init roll).map (fun s => s.roll_no)
          simpa [applyOp, delete_student, hg] using hsub.nodup hinit
      | importFile file policy validate =>
        exact import_csv_nodup init file policy validate hinit
  · intro store roll f hf
    cases hg : get_student_by_roll store roll with
    | none => simp [update_student, hg]
    | some t => simp [update_student, hg, rolls_updateFirst store roll f hf]

/-- Witness for the amended C2: a concrete five-operation run (two adds,
a key-free update, a delete and a reassign-policy import) keeps the
stored keys pairwise distinct. -/
theorem key_uniqueness_invariant_witness :
    (rolls (([SRMSOp.add ⟨1, "A", "X", 50⟩,
              SRMSOp.add ⟨2, "B", "Y", 60⟩,
              SRMSOp.update 1 { name := some "Z" },
              SRMSOp.delete 2,
              SRMSOp.importFile (some ⟨requiredFields, [demoRowDup]⟩) "reassign" true] :
        List SRMSOp).foldl applyOp [])).Nodup :=
  (key_uniqueness_invariant [] _ (by decide) (by decide)).1

/-- Counterexample to C2 as stated: `update_student` accepts the key
field itself, so updating record 1 with `roll_no := 2` in a two-record
store rewrites a live record's key and leaves two live records sharing
key 2. -/
theorem update_breaks_key_uniqueness_cex :
    (update_student (add_student (add_student [] ⟨1, "A", "X", 50⟩).1 ⟨2, "B", "Y", 60⟩).1
        1 { roll_no := some 2 }).1 = [⟨2, "A", "X", 50⟩, ⟨2, "B", "Y", 60⟩] ∧
    (update_student (add_student (add_student [] ⟨1, "A", "X", 50⟩).1 ⟨2, "B", "Y", 60⟩).1
        1 { roll_no := some 2 }).2 = true ∧
    ¬ (rolls (update_student (add_student (add_student [] ⟨1, "A", "X", 50⟩).1
        ⟨2, "B", "Y", 60⟩).1 1 { roll_no := some 2 }).1).Nodup := by
  exact ⟨by decide, by decide, by decide⟩

/-! ### Characterisation of row validation -/

/-- Full characterisation of a successful row validation: both cells
present, a digit-string roll, a parseable mark that passes the optional
range check, and non-empty trimmed name and class, with the produced
tuple built from the trimmed cells. -/
lemma parseRow_ok_iff (validate : Bool) (row : Row) (roll : Int)
    (nm cn : String) (mq : ℚ) :
    parseRow validate row = .ok (roll, nm, cn, mq) ↔
    ∃ rc mc, row.roll_no = some rc ∧ row.marks = some mc ∧
      pyIsDigit (pystrip rc) = true ∧
      roll = (digitsToNat (pystrip rc).data : Int) ∧
      parseFloat (pystrip mc) = some mq ∧
      (validate = true → 0 ≤ mq ∧ mq ≤ 100) ∧
      nm = pystrip (row.name.getD "") ∧ nm ≠ "" ∧
      cn = pystrip (row.class_name.getD "") ∧ cn ≠ "" := by
  constructor
  · intro h
    cases hr : row.roll_no with
    | none => simp [parseRow, hr] at h
    | some rc =>
      cases hm : row.marks with
      | none => simp [parseRow, hr, hm] at h
      | some mc =>
        simp only [parseRow, hr, hm] at h
        refine ⟨rc, mc, rfl, rfl, ?_⟩
        by_cases hd : pyIsDigit (pystrip rc) = false
        · rw [if_pos hd] at h; cases h
        · rw [if_neg hd] at h
          cases hf : parseFloat (pystrip mc) with
          | none => rw [hf] at h; cases h
          | some q =>
            rw [hf] at h
            simp only at h
            by_cases hv : validate = true ∧ ¬(0 ≤ q ∧ q ≤ 100)
            · rw [if_pos hv] at h; cases h
            · rw [if_neg hv] at h
              by_cases hn : pystrip (row.name.getD "") = ""
              · rw [if_pos hn] at h; cases h
              · rw [if_neg hn] at h
                by_cases hc : pystrip (row.class_name.getD "") = ""
                · rw [if_pos hc] at h; cases h
                · rw [if_neg hc] at h
                  obtain ⟨h1, h2, h3, h4⟩ : (digitsToNat (pystrip rc).data : Int) = roll ∧
                      pystrip (row.name.getD "") = nm ∧
                      pystrip (row.class_name.getD "") = cn ∧ q = mq := by
                    simpa [Prod.ext_iff] using h
                  subst h1; subst h2; subst h3; subst h4
                  refine ⟨by simpa using hd, rfl, rfl, ?_, rfl, hn, rfl, hc⟩
                  intro hval
                  by_contra hrange
                  exact hv ⟨hval, hrange⟩
  · rintro ⟨rc, mc, hr, hm, hd, hroll, hf, hv, hnm, hn, hcn, hc⟩
    subst hroll; subst hnm; subst hcn
    have hvneg : ¬(validate = true ∧ ¬(0 ≤ mq ∧ mq ≤ 100)) :=
      fun hcond => hcond.2 (hv hcond.1)
    simp only [parseRow, hr, hm, hf, if_neg hvneg, if_neg hn, if_neg hc]
    rw [if_neg (show ¬ pyIsDigit (pystrip rc) = false by simp [hd])]

/-! ### C10: non-empty name and class texts -/

/-- Members of an overwritten store are old members or carry the incoming
name and class. -/
lemma mem_overwriteFirst (store : Store) (roll : Int) (n c : String) (m : ℚ)
    (t : Student) (h : t ∈ overwriteFirst store roll n c m) :
    t ∈ store ∨ (t.name = n ∧ t.class_name = c) := by
  induction store with
  | nil => cases h
  | cons s rest ih =>
    by_cases hb : s.roll_no = roll
    · simp only [overwriteFirst, beq_iff_eq, if_pos hb] at h
      rcases List.mem_cons.mp h with rfl | h
      · exact Or.inr ⟨rfl, rfl⟩
      · exact Or.inl (List.mem_cons_of_mem _ h)
    · simp only [overwriteFirst, beq_iff_eq, if_neg hb] at h
      rcases List.mem_cons.mp h with rfl | h
      · exact Or.inl (List.mem_cons_self _ _)
      · rcases ih h with h | h
        · exact Or.inl (List.mem_cons_of_mem _ h)
        · exact Or.inr h

/-- One import iteration only ever stores validated (hence non-empty)
name and class texts. -/
lemma importRow_namesOk (policy : String) (validate : Bool) (i : Nat)
    (store : Store) (sum : Summary) (row : Row)
    (h : ∀ t ∈ store, t.name ≠ "" ∧ t.class_name ≠ "") :
    ∀ t ∈ (importRow policy validate i store sum row).1,
      t.name ≠ "" ∧ t.class_name ≠ "" := by
  cases hp : parseRow validate row with
  | error msg => simpa [importRow, hp] using h
  | ok v =>
    obtain ⟨roll, nm, cn, mq⟩ := v
    obtain ⟨rc, mc, _, _, _, _, _, _, _, hn, _, hc⟩ :=
      (parseRow_ok_iff validate row roll nm cn mq).mp hp
    cases hg : get_student_by_roll store roll with
    | none =>
      intro t ht
      simp only [importRow, hp, hg] at ht
      rcases List.mem_append.mp ht with ht | ht
      · exact h t ht
      · rw [List.mem_singleton.mp ht]; exact ⟨hn, hc⟩
    | some s =>
      intro t ht
      simp only [importRow, hp, hg] at ht
      split_ifs at ht with h1 h2 h3
      · exact h t ht
      · rcases mem_overwriteFirst store roll nm cn mq t ht with ht | ⟨e1, e2⟩
        · exact h t ht
        · rw [e1, e2]; exact ⟨hn, hc⟩
      · rcases List.mem_append.mp ht with ht | ht
        · exact h t ht
        · rw [List.mem_singleton.mp ht]; exact ⟨hn, hc⟩
      · exact h t ht

/-- The import loop preserves non-empty name and class texts. -/
lemma importRows_namesOk (policy : String) (validate : Bool) (rows₀ : List Row) :
    ∀ (i : Nat) (store : Store) (sum : Summary),
      (∀ t ∈ store, t.name ≠ "" ∧ t.class_name ≠ "") →
      ∀ t ∈ (importRows policy validate i store sum rows₀).1,
        t.name ≠ "" ∧ t.class_name ≠ "" := by
  induction rows₀ with
  | nil => intro i store sum h; exact h
  | cons row rest ih =>
    intro i store sum h
    simpa [importRows] using
      ih (i + 1) (importRow policy validate i store sum row).1
        (importRow policy validate i store sum row).2
        (importRow_namesOk policy validate i store sum row h)

/-- Amended C10: the import path enforces the non-empty-text data-model
constraint — starting from a store whose records all have non-empty name
and class, every import (any file, policy, validation flag) yields a
store whose records all have non-empty name and class, because rows with
empty trimmed texts are rejected before mutation.  (As stated over all
public operations the claim fails: `add_student` and `update_student`
perform no such validation; see the counterexample.) -/
theorem import_preserves_nonempty_names (store : Store) (file : Option CSVFile)
    (policy : String) (validate : Bool)
    (h : ∀ t ∈ store, t.name ≠ "" ∧ t.class_name ≠ "") :
    ∀ t ∈ (import_csv store file policy validate).1,
      t.name ≠ "" ∧ t.class_name ≠ "" := by
  cases file with
  | none => simpa [import_csv] using h
  | some f =>
    by_cases hh : headerOk f.fieldnames
    · simpa [import_csv, hh] using
        importRows_namesOk policy validate f.rows 2 store emptySummary h
    · simpa [import_csv, hh] using h

/-- Witness for the amended C10: a concrete overwrite-policy import over
a one-record store keeps the overwritten record's texts non-empty. -/
theorem import_preserves_nonempty_names_witness :
    (⟨1, "New", "Y", 99⟩ : Student).name ≠ "" ∧
    (⟨1, "New", "Y", 99⟩ : Student).class_name ≠ "" :=
  import_preserves_nonempty_names [demoDup] (some ⟨requiredFields, [demoRowDup]⟩)
    "overwrite" true (by decide) ⟨1, "New", "Y", 99⟩ (by decide)

/-- Counterexample to C10 as stated: `add_student` accepts a record with
empty name and class texts, so the store invariant fails after a single
public add operation. -/
theorem add_allows_empty_name_cex :
    (add_student [] ⟨1, "", "", 50⟩).2 = true ∧
    ⟨1, "", "", 50⟩ ∈ (add_student [] ⟨1, "", "", 50⟩).1 ∧
    ¬ ∀ t ∈ (add_student [] ⟨1, "", "", 50⟩).1,
        t.name ≠ "" ∧ t.class_name ≠ "" := by
  refine ⟨by decide, by decide, fun h => ?_⟩
  exact (h ⟨1, "", "", 50⟩ (by decide)).1 rfl

/-! ### Decimal rendering and parsing round trip -/

/-- All produced digits are below ten. -/
lemma natDigitsAux_lt_ten (fuel : Nat) : ∀ (n : Nat), ∀ d ∈ natDigitsAux fuel n, d < 10 := by
  induction fuel with
  | zero => intro n d hd; cases hd
  | succ fuel ih =>
    intro n d hd
    by_cases h0 : n = 0
    · rw [natDigitsAux, if_pos h0] at hd; cases hd
    · rw [natDigitsAux, if_neg h0] at hd
      rcases List.mem_cons.mp hd with rfl | hd
      · exact Nat.mod_lt _ (by omega)
      · exact ih _ d hd

/-- The digit list denotes the number it was taken from (with enough
fuel). -/
lemma ofDigits_natDigitsAux (fuel : Nat) : ∀ (n : Nat), n ≤ fuel →
    Nat.ofDigits 10 (natDigitsAux fuel n) = n := by
  induction fuel with
  | zero => intro n hn; interval_cases n; rfl
  | succ fuel ih =>
    intro n hn
    by_cases h0 : n = 0
    · subst h0; rw [natDigitsAux, if_pos rfl]; rfl
    · have hdiv : n / 10 ≤ fuel := by
        have := Nat.div_lt_self (Nat.pos_of_ne_zero h0) (by omega : (1 : Nat) < 10)
        omega
      rw [natDigitsAux, if_neg h0, Nat.ofDigits_cons, ih _ hdiv]
      omega

/-- The digit list of `n` denotes `n`. -/
lemma ofDigits_natDigits (n : Nat) : Nat.ofDigits 10 (natDigits n) = n :=
  ofDigits_natDigitsAux n n le_rfl

/-- Character-level facts about decimal digit characters. -/
lemma digitChar_facts : ∀ d < 10, (digitChar d).toNat - 48 = d ∧
    (digitChar d).isDigit = true ∧ (digitChar d).isWhitespace = false ∧
    digitChar d ≠ '-' ∧ digitChar d ≠ '+' ∧ digitChar d ≠ '.' := by decide

/-- Folding from an accumulator scales it by the remaining width. -/
lemma digitsToNat_acc (l : List Char) : ∀ a : Nat,
    l.foldl (fun a c => 10 * a + (c.toNat - 48)) a = a * 10 ^ l.length + digitsToNat l := by
  induction l with
  | nil => intro a; simp [digitsToNat]
  | cons c rest ih =>
    intro a
    have h1 := ih (10 * a + (c.toNat - 48))
    have h2 := ih (10 * 0 + (c.toNat - 48))
    simp only [digitsToNat, List.foldl_cons] at h1 h2 ⊢
    rw [h1, h2, List.length_cons, pow_succ]
    ring

/-- Reading back a rendered (big-endian) digit list recovers the value. -/
lemma digitsToNat_reverse_map (L : List Nat) (h : ∀ d ∈ L, d < 10) :
    digitsToNat ((L.map digitChar).reverse) = Nat.ofDigits 10 L := by
  rw [digitsToNat, List.foldl_reverse, List.foldr_map]
  induction L with
  | nil => rfl
  | cons d rest ih =>
    rw [List.foldr_cons, Nat.ofDigits_cons,
      ih (fun x hx => h x (List.mem_cons_of_mem _ hx)),
      (digitChar_facts d (h d (List.mem_cons_self _ _))).1]
    ring

/-- Rendering then reading a natural number is the identity. -/
lemma digitsToNat_natRender (n : Nat) : digitsToNat (natRender n) = n := by
  by_cases h0 : n = 0
  · subst h0; rfl
  · rw [natRender, if_neg h0,
      digitsToNat_reverse_map (natDigits n) (natDigitsAux_lt_ten n n), ofDigits_natDigits]

/-- A rendered natural number is a non-empty string of digit characters. -/
lemma natRender_digits (n : Nat) :
    natRender n ≠ [] ∧ ∀ c ∈ natRender n, c.isDigit = true := by
  by_cases h0 : n = 0
  · subst h0; exact ⟨by decide, by decide⟩
  · rw [natRender, if_neg h0]
    refine ⟨?_, ?_⟩
    · intro hnil
      have hlen : natDigits n = [] := by
        have := congrArg List.length hnil
        simpa using this
      have h1 := ofDigits_natDigits n
      rw [hlen] at h1
      exact h0 (by simpa using h1.symm)
    · intro c hc
      rcases List.mem_map.mp (List.mem_reverse.mp hc) with ⟨d, hd, rfl⟩
      exact (digitChar_facts d (natDigitsAux_lt_ten n n d hd)).2.1

/-- The fixed-width fractional rendering has exactly the asked width. -/
lemma fracDigits_length (k : Nat) : ∀ m : Nat, (fracDigits k m).length = k := by
  induction k with
  | zero => intro m; rfl
  | succ k ih => intro m; simp [fracDigits, ih]

/-- The fixed-width fractional rendering consists of digit characters. -/
lemma fracDigits_digits (k : Nat) : ∀ m : Nat, m < 10 ^ k →
    ∀ c ∈ fracDigits k m, c.isDigit = true := by
  induction k with
  | zero => intro m _ c hc; cases hc
  | succ k ih =>
    intro m hm c hc
    rw [fracDigits] at hc
    rcases List.mem_cons.mp hc with rfl | hc
    · refine (digitChar_facts (m / 10 ^ k) ?_).2.1
      refine Nat.div_lt_of_lt_mul ?_
      calc m < 10 ^ (k + 1) := hm
        _ = 10 ^ k * 10 := by rw [pow_succ]
    · exact ih (m % 10 ^ k) (Nat.mod_lt _ (by positivity)) c hc

/-- Reading back the fixed-width fractional rendering recovers the value. -/
lemma digitsToNat_fracDigits (k : Nat) : ∀ m : Nat, m < 10 ^ k →
    digitsToNat (fracDigits k m) = m := by
  induction k with
  | zero => intro m hm; interval_cases m; rfl
  | succ k ih =>
    intro m hm
    have hdlt : m / 10 ^ k < 10 := by
      refine Nat.div_lt_of_lt_mul ?_
      calc m < 10 ^ (k + 1) := hm
        _ = 10 ^ k * 10 := by rw [pow_succ]
    rw [fracDigits, digitsToNat, List.foldl_cons]
    have hacc := digitsToNat_acc (fracDigits k (m % 10 ^ k)) (10 * 0 + ((digitChar (m / 10 ^ k)).toNat - 48))
    rw [hacc, fracDigits_length,
      (digitChar_facts (m / 10 ^ k) hdlt).1,
      ih (m % 10 ^ k) (Nat.mod_lt _ (by positivity))]
    have h2 : (10 * 0 + m / 10 ^ k) * 10 ^ k = 10 ^ k * (m / 10 ^ k) := by ring
    rw [h2]
    exact Nat.div_add_mod m (10 ^ k)

/-! ### String-level facts used by the round trip -/

/-- A digit character is not whitespace and is none of the sign or point
characters. -/
lemma isDigit_char_facts (c : Char) (h : c.isDigit = true) :
    c.isWhitespace = false ∧ c ≠ '-' ∧ c ≠ '+' ∧ c ≠ '.' := by
  refine ⟨?_, ?_, ?_, ?_⟩
  · rcases hw : c.isWhitespace with _ | _
    · rfl
    · have : ((c = ' ' ∨ c = '\t') ∨ c = '\x0d') ∨ c = '\n' := by
        simpa [Char.isWhitespace] using hw
      rcases this with ((rfl | rfl) | rfl) | rfl <;> exact absurd h (by decide)
  · rintro rfl; exact absurd h (by decide)
  · rintro rfl; exact absurd h (by decide)
  · rintro rfl; exact absurd h (by decide)

/-- Dropping leading whitespace from whitespace-free text is a no-op. -/
lemma dropWhile_ws_eq_self (l : List Char) (h : ∀ c ∈ l, c.isWhitespace = false) :
    l.dropWhile Char.isWhitespace = l := by
  cases l with
  | nil => rfl
  | cons c rest => simp [List.dropWhile_cons, h c (List.mem_cons_self _ _)]

/-- Stripping whitespace-free text is a no-op. -/
lemma pystrip_eq_self (l : List Char) (h : ∀ c ∈ l, c.isWhitespace = false) :
    pystrip ⟨l⟩ = ⟨l⟩ := by
  rw [pystrip]
  congr 1
  show ((l.dropWhile Char.isWhitespace).reverse.dropWhile Char.isWhitespace).reverse = l
  rw [dropWhile_ws_eq_self l h,
    dropWhile_ws_eq_self l.reverse (fun c hc => h c (List.mem_reverse.mp hc)),
    List.reverse_reverse]

/-- A non-empty all-digit string passes the `isdigit` test. -/
lemma pyIsDigit_of_digits (l : List Char) (hne : l ≠ []) (h : ∀ c ∈ l, c.isDigit = true) :
    pyIsDigit ⟨l⟩ = true := by
  have hdata : (⟨l⟩ : String).data = l := rfl
  simp only [pyIsDigit, hdata, List.isEmpty_iff, List.all_eq_true, Bool.and_eq_true,
    Bool.not_eq_eq_eq_not, Bool.not_true, decide_eq_false hne]
  exact ⟨by simp [List.isEmpty_iff, hne], h⟩

/-- Taking and dropping digits around the first non-digit splits an
append exactly at that point. -/
lemma takeWhile_append_stop (p : Char → Bool) (l₁ l₂ : List Char) (x : Char)
    (h1 : ∀ c ∈ l₁, p c = true) (hx : p x = false) :
    (l₁ ++ x :: l₂).takeWhile p = l₁ ∧ (l₁ ++ x :: l₂).dropWhile p = x :: l₂ := by
  induction l₁ with
  | nil => simp [List.takeWhile_cons, List.dropWhile_cons, hx]
  | cons c rest ih =>
    have hc := h1 c (List.mem_cons_self _ _)
    have ih' := ih (fun d hd => h1 d (List.mem_cons_of_mem _ hd))
    simp [List.takeWhile_cons, List.dropWhile_cons, hc, ih'.1, ih'.2]

/-- Value of the decimal parser core on a rendered `digits.digits` text. -/
lemma parseFloatCore_digits_point (ip frac : List Char)
    (hipne : ip ≠ []) (hip : ∀ c ∈ ip, c.isDigit = true)
    (hfrac : ∀ c ∈ frac, c.isDigit = true) :
    parseFloatCore (ip ++ '.' :: frac) =
      some (mkRat (digitsToNat ip * 10 ^ frac.length + digitsToNat frac)
        (10 ^ frac.length)) := by
  have hsplit := takeWhile_append_stop Char.isDigit ip frac '.' hip (by decide)
  simp only [parseFloatCore, hsplit.1, hsplit.2]
  simp [List.all_eq_true, List.isEmpty_iff, hipne]
  exact hfrac

/-- The sign dispatch of the float parser falls through on a leading
digit. -/
lemma parseFloat_digit_head (c : Char) (rest : List Char) (hc : c.isDigit = true) :
    parseFloat ⟨c :: rest⟩ = parseFloatCore (c :: rest) := by
  obtain ⟨_, h1, h2, _⟩ := isDigit_char_facts c hc
  have hdata : (⟨c :: rest⟩ : String).data = c :: rest := rfl
  rw [parseFloat, hdata]
  split
  · rename_i r heq
    injection heq with hh _
    exact absurd hh h1
  · rename_i r heq
    injection heq with hh _
    exact absurd hh h2
  · rfl

/-! ### Rational rendering round trip -/

/-- Unfolding of `renderQ` on a non-negative value (no sign character). -/
lemma renderQ_nonneg (q : ℚ) (hq : 0 ≤ q) :
    renderQ q = ⟨natRender (q.num.natAbs * (10 ^ q.den / q.den) / 10 ^ q.den) ++
      '.' :: fracDigits q.den (q.num.natAbs * (10 ^ q.den / q.den) % 10 ^ q.den)⟩ := by
  have hnn : ¬ q.num < 0 := not_lt.mpr (Rat.num_nonneg.mpr hq)
  simp only [renderQ, if_neg hnn]

/-- A rendered non-negative rational contains no whitespace. -/
lemma renderQ_no_ws (q : ℚ) (hq : 0 ≤ q) :
    ∀ c ∈ (renderQ q).data, c.isWhitespace = false := by
  rw [renderQ_nonneg q hq]
  intro c hc
  have hc' : c ∈ natRender (q.num.natAbs * (10 ^ q.den / q.den) / 10 ^ q.den) ++
      '.' :: fracDigits q.den (q.num.natAbs * (10 ^ q.den / q.den) % 10 ^ q.den) := hc
  rcases List.mem_append.mp hc' with hcl | hcr
  · exact (isDigit_char_facts c ((natRender_digits _).2 c hcl)).1
  · rcases List.mem_cons.mp hcr with rfl | hcf
    · rfl
    · exact (isDigit_char_facts c
        (fracDigits_digits q.den _ (Nat.mod_lt _ (by positivity)) c hcf)).1

/-- The rendered integer/fraction pair denotes exactly the decimal
rational it came from. -/
lemma mkRat_decimal (q : ℚ) (hq : 0 ≤ q) (hdec : q.den ∣ 10 ^ q.den) :
    mkRat (q.num.natAbs * (10 ^ q.den / q.den) : Nat) (10 ^ q.den) = q := by
  have hdpos : 0 < q.den := q.pos
  have hcpos : 0 < 10 ^ q.den / q.den :=
    Nat.div_pos (Nat.le_of_dvd (by positivity) hdec) hdpos
  have h1 : ((q.num.natAbs * (10 ^ q.den / q.den) : Nat) : ℚ) =
      (q.num : ℚ) * ((10 ^ q.den / q.den : Nat) : ℚ) := by
    rw [Nat.cast_mul]
    congr 1
    rw [Int.cast_natAbs, abs_of_nonneg (by exact_mod_cast Rat.num_nonneg.mpr hq)]
  have h2 : ((10 ^ q.den : Nat) : ℚ) = (q.den : ℚ) * ((10 ^ q.den / q.den : Nat) : ℚ) := by
    rw [← Nat.cast_mul, Nat.mul_div_cancel' hdec]
  have hc0 : ((10 ^ q.den / q.den : Nat) : ℚ) ≠ 0 := Nat.cast_ne_zero.mpr hcpos.ne'
  rw [Rat.mkRat_eq_div, Int.cast_natCast, h1, h2,
    mul_div_mul_right _ _ hc0, Rat.num_div_den]

/-- Parsing the rendered text of a non-negative decimal rational recovers
it exactly. -/
lemma parseFloat_renderQ (q : ℚ) (hq : 0 ≤ q) (hdec : q.den ∣ 10 ^ q.den) :
    parseFloat (renderQ q) = some q := by
  have hk : (0 : Nat) < 10 ^ q.den := by positivity
  obtain ⟨c, cs, hcs⟩ := List.exists_cons_of_ne_nil
    (natRender_digits (q.num.natAbs * (10 ^ q.den / q.den) / 10 ^ q.den)).1
  have hcdig : c.isDigit = true :=
    (natRender_digits _).2 c (by rw [hcs]; exact List.mem_cons_self c cs)
  rw [renderQ_nonneg q hq, hcs, List.cons_append, parseFloat_digit_head c _ hcdig,
    ← List.cons_append, ← hcs,
    parseFloatCore_digits_point _ _ (natRender_digits _).1 (natRender_digits _).2
      (fracDigits_digits q.den _ (Nat.mod_lt _ hk)),
    digitsToNat_natRender, fracDigits_length, digitsToNat_fracDigits q.den _ (Nat.mod_lt _ hk)]
  have hsum : q.num.natAbs * (10 ^ q.den / q.den) / 10 ^ q.den * 10 ^ q.den +
      q.num.natAbs * (10 ^ q.den / q.den) % 10 ^ q.den =
      q.num.natAbs * (10 ^ q.den / q.den) := by
    rw [mul_comm]
    exact Nat.div_add_mod _ _
  have hsumZ : ((q.num.natAbs * (10 ^ q.den / q.den) / 10 ^ q.den : Nat) : Int) *
      10 ^ q.den + ((q.num.natAbs * (10 ^ q.den / q.den) % 10 ^ q.den : Nat) : Int) =
      ((q.num.natAbs * (10 ^ q.den / q.den) : Nat) : Int) := by
    exact_mod_cast hsum
  rw [hsumZ]
  exact congrArg some (mkRat_decimal q hq hdec)

/-- Round trip for a rendered non-negative integer roll number. -/
lemma intRender_roundTrip (i : Int) (h : 0 ≤ i) :
    pystrip ⟨intRender i⟩ = ⟨intRender i⟩ ∧ pyIsDigit ⟨intRender i⟩ = true ∧
    ((digitsToNat (⟨intRender i⟩ : String).data : Nat) : Int) = i := by
  have hir : intRender i = natRender i.natAbs := by
    rw [intRender, if_neg (not_lt.mpr h)]
  have hd := natRender_digits i.natAbs
  have hdata : (⟨intRender i⟩ : String).data = intRender i := rfl
  refine ⟨?_, ?_, ?_⟩
  · refine pystrip_eq_self _ (fun c hc => ?_)
    rw [hir] at hc
    exact (isDigit_char_facts c (hd.2 c hc)).1
  · rw [hir]
    exact pyIsDigit_of_digits _ hd.1 hd.2
  · rw [hdata, hir, digitsToNat_natRender]
    exact Int.natAbs_of_nonneg h

/-- An exported row of a well-formed student parses back to exactly that
student's fields. -/
lemma parseRow_studentRow (validate : Bool) (s : Student)
    (h0 : 0 ≤ s.roll_no)
    (hname : pystrip s.name = s.name) (hn : s.name ≠ "")
    (hclass : pystrip s.class_name = s.class_name) (hc : s.class_name ≠ "")
    (hm0 : 0 ≤ s.marks) (hm1 : s.marks ≤ 100) (hdec : s.marks.den ∣ 10 ^ s.marks.den) :
    parseRow validate (studentRow s) = .ok (s.roll_no, s.name, s.class_name, s.marks) := by
  apply (parseRow_ok_iff validate (studentRow s) s.roll_no s.name s.class_name s.marks).mpr
  obtain ⟨hstrip, hdig, hval⟩ := intRender_roundTrip s.roll_no h0
  have hstripQ : pystrip (renderQ s.marks) = renderQ s.marks :=
    pystrip_eq_self _ (renderQ_no_ws s.marks hm0)
  refine ⟨⟨intRender s.roll_no⟩, renderQ s.marks, rfl, rfl, ?_, ?_, ?_, ?_, ?_, hn, ?_, hc⟩
  · rw [hstrip]; exact hdig
  · rw [hstrip]; exact hval.symm
  · rw [hstripQ]; exact parseFloat_renderQ s.marks hm0 hdec
  · exact fun _ => ⟨hm0, hm1⟩
  · exact hname.symm
  · exact hclass.symm

/-! ### C4: export/import round trip -/

/-- Importing rows that all parse back to students with fresh, pairwise
distinct rolls appends exactly those students and counts them all as
imported (no duplicate branch is ever taken, so the policy is
irrelevant). -/
lemma importRows_all_fresh (policy : String) (validate : Bool) (l : List Student) :
    ∀ (i : Nat) (store : Store) (sum : Summary),
      (∀ s ∈ l, parseRow validate (studentRow s) =
        .ok (s.roll_no, s.name, s.class_name, s.marks)) →
      (rolls (store ++ l)).Nodup →
      importRows policy validate i store sum (l.map studentRow) =
        (store ++ l,
         { sum with read_rows := sum.read_rows + l.length,
                    imported := sum.imported + l.length }) := by
  induction l with
  | nil =>
    intro i store sum _ _
    simp [importRows]
  | cons s l' ih =>
    intro i store sum hok hnd
    have hs := hok s (List.mem_cons_self _ _)
    have hnotin : s.roll_no ∉ rolls store := by
      rw [rolls, List.map_append] at hnd
      have hdisj := (List.nodup_append.mp hnd).2.2
      intro hmem
      exact hdisj hmem (by simp [rolls])
    have hget : get_student_by_roll store s.roll_no = none :=
      (get_student_by_roll_eq_none_iff store s.roll_no).mpr hnotin
    have hnd' : (rolls ((store ++ [s]) ++ l')).Nodup := by
      rw [List.append_assoc]
      simpa using hnd
    have heta : (⟨s.roll_no, s.name, s.class_name, s.marks⟩ : Student) = s := rfl
    have hstep : importRow policy validate i store sum (studentRow s) =
        (store ++ [s],
         { sum with read_rows := sum.read_rows + 1, imported := sum.imported + 1 }) := by
      simp [importRow, hs, hget, heta]
    rw [List.map_cons]
    show importRows policy validate (i + 1)
        (importRow policy validate i store sum (studentRow s)).1
        (importRow policy validate i store sum (studentRow s)).2 (l'.map studentRow) = _
    rw [hstep]
    rw [ih (i + 1) (store ++ [s])
      { sum with read_rows := sum.read_rows + 1, imported := sum.imported + 1 }
      (fun t ht => hok t (List.mem_cons_of_mem _ ht)) hnd']
    rw [List.append_assoc]
    simp only [List.singleton_append, List.length_cons, Prod.mk.injEq, Summary.mk.injEq,
      and_true, true_and]
    omega

/-- Amended C4: for every store with pairwise-distinct non-negative keys
whose records would pass import validation unchanged (names and classes
non-empty and free of surrounding whitespace, marks a decimal fraction
within [0, 100]), exporting and importing into a fresh empty store under
`skip` imports all N records and reproduces exactly the same set of
(key, name, group, score) tuples — exact equality in the rational model,
which mirrors Python's exact float round trip.  (As stated over all
stores the claim fails, e.g. for a record with an empty name; see the
counterexample.) -/
theorem export_import_round_trip (store : Store) (validate : Bool)
    (hnd : (rolls store).Nodup)
    (h : ∀ s ∈ store, 0 ≤ s.roll_no ∧
      pystrip s.name = s.name ∧ s.name ≠ "" ∧
      pystrip s.class_name = s.class_name ∧ s.class_name ≠ "" ∧
      0 ≤ s.marks ∧ s.marks ≤ 100 ∧ s.marks.den ∣ 10 ^ s.marks.den) :
    (import_csv [] (some (export_csv store)) "skip" validate).2.imported = store.length ∧
    ∀ t : Student,
      t ∈ (import_csv [] (some (export_csv store)) "skip" validate).1 ↔ t ∈ store := by
  have hperm : (list_students store).Perm store := List.perm_insertionSort _ store
  have hpermRolls : (rolls (list_students store)).Perm (rolls store) := by
    unfold rolls
    exact hperm.map _
  have hndl : (rolls ([] ++ list_students store)).Nodup := by
    simpa using hpermRolls.nodup_iff.mpr hnd
  have hok : ∀ s ∈ list_students store,
      parseRow validate (studentRow s) = .ok (s.roll_no, s.name, s.class_name, s.marks) := by
    intro s hs
    obtain ⟨a, b, c, d, e, f, g, k⟩ := h s (hperm.mem_iff.mp hs)
    exact parseRow_studentRow validate s a b c d e f g k
  have hmain := importRows_all_fresh "skip" validate (list_students store) 2 [] emptySummary
    hok hndl
  have hrun : import_csv [] (some (export_csv store)) "skip" validate =
      importRows "skip" validate 2 [] emptySummary ((list_students store).map studentRow) := by
    simp [import_csv, export_csv, headerOk, requiredFields]
  rw [hrun, hmain]
  constructor
  · simp [emptySummary, hperm.length_eq]
  · intro t
    simpa using hperm.mem_iff

/-- A concrete two-record store (unsorted, fractional marks) for the
round-trip witness. -/
def demoStore : Store := [⟨3, "B", "Y", 60⟩, ⟨1, "A", "X", mkRat 111 2⟩]

/-- Witness for the amended C4: the round trip applied to `demoStore`. -/
theorem export_import_round_trip_witness :
    (import_csv [] (some (export_csv demoStore)) "skip" true).2.imported =
      demoStore.length ∧
    ∀ t : Student,
      t ∈ (import_csv [] (some (export_csv demoStore)) "skip" true).1 ↔ t ∈ demoStore :=
  export_import_round_trip demoStore true (by decide) (by decide)

/-- Counterexample to C4 as stated: a store whose single record has an
empty name exports fine, but the import of the export rejects the row,
so the fresh store stays empty and `imported` is 0, not N = 1. -/
theorem round_trip_cex :
    ([⟨1, "", "X", 50⟩] : Store).length = 1 ∧
    (import_csv [] (some (export_csv [⟨1, "", "X", 50⟩])) "skip" true).2.imported = 0 ∧
    (import_csv [] (some (export_csv [⟨1, "", "X", 50⟩])) "skip" true).1 = [] := by
  exact ⟨rfl, by decide, by decide⟩
